import Mathlib

/-!
# Verification of the dockfinder scrape pipeline (src/scrape.py)

A shallow embedding of `scrape.py`.  HTML markup is modelled *after* the
external parser (BeautifulSoup) has run, as a tree of element/text nodes;
BeautifulSoup's tree queries (`find_all`, `get_text`, attribute access,
`str(tag)` serialisation) are embedded as recursive functions on that tree.
Python exceptions (`KeyError`, `ValueError`, `IndexError`, `AttributeError`)
are modelled with `Except`; Python `None` with `Option`.
-/

namespace Dockfinder

/-- Python exception kinds that the scraping code can raise. -/
inductive PyErr where
  | keyError
  | valueError
  | indexError
  | attributeError
deriving DecidableEq, Repr

instance {ε α : Type} [DecidableEq ε] [DecidableEq α] : DecidableEq (Except ε α) :=
  fun a b =>
  match a, b with
  | .ok x, .ok y =>
    if h : x = y then .isTrue (by rw [h])
    else .isFalse (by intro he; cases he; exact h rfl)
  | .error x, .error y =>
    if h : x = y then .isTrue (by rw [h])
    else .isFalse (by intro he; cases he; exact h rfl)
  | .ok _, .error _ => .isFalse (by intro he; cases he)
  | .error _, .ok _ => .isFalse (by intro he; cases he)

/-- Characters Python's `str.strip()` removes (ASCII whitespace set). -/
def isPyWs (c : Char) : Bool :=
  c = ' ' || c = '\t' || c = '\n' || c = '\r' || c = '\x0b' || c = '\x0c'

/-- Python `str.strip()` on the character list. -/
def stripL (cs : List Char) : List Char :=
  ((cs.dropWhile isPyWs).reverse.dropWhile isPyWs).reverse

/-- Python `str.strip()`. -/
def pyStrip (s : String) : String := String.mk (stripL s.toList)

/-- Python `str.upper()` (ASCII model). -/
def pyUpper (s : String) : String := String.mk (s.toList.map Char.toUpper)

/-- Python `str.lower()` (ASCII model). -/
def pyLower (s : String) : String := String.mk (s.toList.map Char.toLower)

/-- `n` is a leading segment of `h` (Boolean, on char lists). -/
def startsL : List Char → List Char → Bool
  | [], _ => true
  | _ :: _, [] => false
  | a :: as, b :: bs => a = b && startsL as bs

/-- Python `needle in hay` substring test (Boolean, on char lists). -/
def substrL (n : List Char) : List Char → Bool
  | [] => startsL n []
  | c :: cs => startsL n (c :: cs) || substrL n cs

/-- Python `sub in s` on strings. -/
def pyIn (sub s : String) : Bool := substrL sub.toList s.toList

/-- Helper for whitespace splitting: `acc` holds the reversed current run. -/
def splitWsAux : List Char → List Char → List (List Char)
  | [], acc => if acc = [] then [] else [acc.reverse]
  | c :: cs, acc =>
    if isPyWs c then
      if acc = [] then splitWsAux cs [] else acc.reverse :: splitWsAux cs []
    else splitWsAux cs (c :: acc)

/-- Python `str.split()` with no argument: split on whitespace runs,
dropping empty pieces (used by BeautifulSoup for multi-valued attributes). -/
def splitWsL (cs : List Char) : List (List Char) := splitWsAux cs []

/-- Whitespace tokens of an attribute value, as strings. -/
def wsTokens (s : String) : List String := (splitWsL s.toList).map String.mk

/-- Python `s.startswith(p)` (and the leading-match test of the embedded
regex searches). -/
def pyStartsWith (p s : String) : Bool := startsL p.toList s.toList

/-- Fuel-indexed worker for `pySplit`; each step consumes at least one
character, so fuel `length + 1` never runs out. -/
def splitOnFuel (sep : List Char) : Nat → List Char → List Char → List (List Char)
  | 0, rest, acc => [acc.reverse ++ rest]
  | _ + 1, [], acc => [acc.reverse]
  | f + 1, c :: cs, acc =>
    if startsL sep (c :: cs) then
      acc.reverse :: splitOnFuel sep f (List.drop (sep.length - 1) cs) []
    else splitOnFuel sep f cs (c :: acc)

/-- Python `s.split(sep)` for a nonempty separator: non-overlapping
left-to-right splits, keeping empty pieces. -/
def pySplit (s sep : String) : List String :=
  (splitOnFuel sep.toList (s.toList.length + 1) s.toList []).map String.mk

/-- Python `s.replace('-', ' ')`: with single-character arguments, a
character-wise replacement. -/
def dashToSpace (s : String) : String :=
  String.mk (s.toList.map (fun c => if c = '-' then ' ' else c))

/-- Digit-list to numeric value. -/
def digitsVal (cs : List Char) : Nat :=
  cs.foldl (fun a c => a * 10 + (c.toNat - '0'.toNat)) 0

/-- Python `int(s)`: optional surrounding whitespace, optional sign, then a
nonempty digit string in which single underscores may separate digits.
Raises `ValueError` otherwise (ASCII-digit model). -/
def pyIntE (s : String) : Except PyErr Int :=
  let cs := stripL s.toList
  let (sign, body) : Int × List Char :=
    match cs with
    | '-' :: rest => (-1, rest)
    | '+' :: rest => (1, rest)
    | _ => (1, cs)
  let rec okBody : List Char → Bool
    | [] => false
    | [c] => c.isDigit
    | c :: '_' :: rest => c.isDigit && okBody rest
    | c :: rest => c.isDigit && okBody rest
  if okBody body then
    .ok (sign * Int.ofNat (digitsVal (body.filter Char.isDigit)))
  else
    .error .valueError

/-- A parsed HTML node: an element with a tag name, attributes in source
order, and child nodes, or a text node. -/
inductive Node where
  | elem (tag : String) (attrs : List (String × String)) (children : List Node)
  | text (s : String)
deriving Repr

/-- A parsed document (BeautifulSoup's top level): a list of root nodes. -/
abbrev Doc := List Node

mutual
/-- Boolean equality on nodes. -/
def Node.beq : Node → Node → Bool
  | .text a, .text b => a == b
  | .elem t a cs, .elem t' a' cs' => t == t' && a == a' && Node.beqList cs cs'
  | _, _ => false

def Node.beqList : List Node → List Node → Bool
  | [], [] => true
  | x :: xs, y :: ys => Node.beq x y && Node.beqList xs ys
  | _, _ => false
end

mutual
theorem Node.beq_refl : ∀ n : Node, Node.beq n n = true
  | .text s => by simp [Node.beq]
  | .elem t a cs => by simp [Node.beq, Node.beqList_refl cs]

theorem Node.beqList_refl : ∀ l : List Node, Node.beqList l l = true
  | [] => by simp [Node.beqList]
  | x :: xs => by simp [Node.beqList, Node.beq_refl x, Node.beqList_refl xs]
end

mutual
theorem Node.eq_of_beq : ∀ {a b : Node}, Node.beq a b = true → a = b
  | .text a, .text b, h => by
    simp [Node.beq] at h; simp [h]
  | .elem t a cs, .elem t' a' cs', h => by
    simp only [Node.beq, Bool.and_eq_true, beq_iff_eq] at h
    obtain ⟨⟨rfl, rfl⟩, hcs⟩ := h
    have := Node.eqList_of_beqList hcs
    simp [this]
  | .text _, .elem _ _ _, h => by simp [Node.beq] at h
  | .elem _ _ _, .text _, h => by simp [Node.beq] at h

theorem Node.eqList_of_beqList : ∀ {l l' : List Node}, Node.beqList l l' = true → l = l'
  | [], [], _ => rfl
  | x :: xs, y :: ys, h => by
    simp only [Node.beqList, Bool.and_eq_true] at h
    have h1 := Node.eq_of_beq h.1
    have h2 := Node.eqList_of_beqList h.2
    simp [h1, h2]
  | [], _ :: _, h => by simp [Node.beqList] at h
  | _ :: _, [], h => by simp [Node.beqList] at h
end

instance : BEq Node := ⟨Node.beq⟩

instance : DecidableEq Node := fun a b =>
  if h : Node.beq a b = true then
    .isTrue (Node.eq_of_beq h)
  else
    .isFalse (fun he => h (he ▸ Node.beq_refl a))

/-! ## BeautifulSoup tree operations -/

mutual
/-- `tag.get_text(strip=True)`: the concatenation of the stripped text of
every text descendant (BeautifulSoup joins the stripped fragments with the
empty separator). -/
def getTextS : Node → String
  | .text s => pyStrip s
  | .elem _ _ cs => getTextSList cs

def getTextSList : List Node → String
  | [] => ""
  | c :: cs => getTextS c ++ getTextSList cs
end

/-- Attribute access `tag[key]` / `tag.get(key)`: first attribute with the
given name (the HTML parser keeps the first of duplicate attributes). -/
def getAttr (n : Node) (key : String) : Option String :=
  match n with
  | .text _ => none
  | .elem _ attrs _ =>
    (attrs.find? (fun p => p.1 == key)).map (fun p => p.2)

/-- `tag.string`: the single text child, looking through a chain of
single-element children; `None` if the node does not have exactly one child
at each level of the chain. -/
def nodeString : Node → Option String
  | .elem _ _ [.text s] => some s
  | .elem _ _ [.elem t a cs] => nodeString (.elem t a cs)
  | _ => none

mutual
/-- `find_all(...)` over a node: the node itself (if it is an element
satisfying the filter) followed by matching descendants, in document
(pre-) order.  Text nodes are never returned (BeautifulSoup's `find_all`
with tag/attribute filters only yields tags). -/
def findAllFrom (p : Node → Bool) : Node → List Node
  | .text _ => []
  | .elem t a cs =>
    (if p (.elem t a cs) then [Node.elem t a cs] else []) ++ findAllList p cs

def findAllList (p : Node → Bool) : List Node → List Node
  | [] => []
  | n :: ns => findAllFrom p n ++ findAllList p ns
end

/-- `soup.find_all(...)` over the whole document. -/
def findAllDoc (p : Node → Bool) (doc : Doc) : List Node := findAllList p doc

/-- `soup.find(...)`: first match in document order, or `None`. -/
def findDoc (p : Node → Bool) (doc : Doc) : Option Node := (findAllDoc p doc).head?

/-- `tag.find_all(...)`: matching strict descendants of a tag. -/
def findAllUnder (p : Node → Bool) (n : Node) : List Node :=
  match n with
  | .text _ => []
  | .elem _ _ cs => findAllList p cs

/-- Is `n` an element with the given tag name? -/
def isTagName (t : String) (n : Node) : Bool :=
  match n with
  | .elem tag _ _ => tag == t
  | .text _ => false

/-- BeautifulSoup attribute matching for multi-valued attributes
(`class`, `rel`): the searched-for string matches if it equals one of the
whitespace-separated tokens of the attribute value, or the space-rejoined
token list as a whole. -/
def multiAttrMatch (n : Node) (key want : String) : Bool :=
  match getAttr n key with
  | none => false
  | some v =>
    let toks := wsTokens v
    toks.contains want || String.intercalate " " toks == want

/-- `class_=...` matching. -/
def classMatch (want : String) (n : Node) : Bool := multiAttrMatch n "class" want

/-- Exact (single-valued) attribute matching, e.g. `attrs={'name': ...}`,
`property=...`, `id=...`. -/
def attrEq (n : Node) (key want : String) : Bool := getAttr n key == some want

/-! ## `str(tag)` serialisation (used by `get_maxpageid`) -/

/-- Escaping of text content in BeautifulSoup's minimal output formatter. -/
def escTextC (c : Char) : String :=
  if c = '&' then "&amp;" else if c = '<' then "&lt;" else if c = '>' then "&gt;" else String.mk [c]

/-- Escaping of attribute values (additionally escapes the double quote). -/
def escAttrC (c : Char) : String :=
  if c = '"' then "&quot;" else escTextC c

def escText (s : String) : String := String.join (s.toList.map escTextC)

def escAttr (s : String) : String := String.join (s.toList.map escAttrC)

def renderAttrs (attrs : List (String × String)) : String :=
  String.join (attrs.map (fun p => " " ++ p.1 ++ "=\x22" ++ escAttr p.2 ++ "\x22"))

mutual
/-- `str(tag)`: serialised markup of a node (minimal formatter; void-element
self-closing is not modelled, which matters only to tags no claim touches). -/
def render : Node → String
  | .text s => escText s
  | .elem t attrs cs =>
    "<" ++ t ++ renderAttrs attrs ++ ">" ++ renderList cs ++ "</" ++ t ++ ">"

def renderList : List Node → String
  | [] => ""
  | n :: ns => render n ++ renderList ns
end

/-! ## `get_maxpageid` (scrape.py lines 46-83) -/

/-- An anchor whose `get_text(strip=True)` is exactly `'...'`
(`find_multiline_ellipsis_links`). -/
def isEllipsisAnchor (n : Node) : Bool := isTagName "a" n && getTextS n == "..."

/-- The `<a>` blocks collected by `find_multiline_ellipsis_links`. -/
def ellipsisAnchors (doc : Doc) : List Node := findAllDoc isEllipsisAnchor doc

/-- `line.split('page=')[1].split('\x22')[0].split('&')[0]` followed by
`int(...)`: `IndexError` when `'page='` does not occur in `line`,
`ValueError` when the extracted text is not an integer literal. -/
def extractPageVal (line : String) : Except PyErr Int :=
  match (pySplit line "page=").tail.head? with
  | none => .error .indexError
  | some after =>
    pyIntE (pySplit ((pySplit after "\x22").headD "") "&" |>.headD "")

/-- `get_maxpageid(html)`: consults only the first ellipsis anchor; when
there is none the `for` loop never runs and the function returns `None`. -/
def get_maxpageid (doc : Doc) : Except PyErr (Option Int) :=
  match ellipsisAnchors doc with
  | [] => .ok none
  | a :: _ => (extractPageVal (render a)).map some

/-! ## `find_listing_links` (scrape.py lines 87-105) -/

/-- The anchors returned by `soup.find_all('a', href=True)`. -/
def anchorsWithHref (doc : Doc) : List Node :=
  findAllDoc (fun n => isTagName "a" n && (getAttr n "href").isSome) doc

/-- The `href` values of those anchors, in document order. -/
def anchorHrefs (doc : Doc) : List String :=
  (anchorsWithHref doc).filterMap (fun n => getAttr n "href")

/-- `find_listing_links(html)`: collect each anchor's `href` when it starts
with `'/listing/'`. -/
def find_listing_links (doc : Doc) : List String :=
  (anchorsWithHref doc).foldl
    (fun acc n =>
      match getAttr n "href" with
      | some h => if pyStartsWith "/listing/" h then acc ++ [h] else acc
      | none => acc) []

/-! ## `details_list_to_dict` (scrape.py lines 202-220) and the dict model -/

/-- A value stored in one of the detail dictionaries: Python `None`, a
string, or a list of strings (`detail[1:]`). -/
inductive DetailVal where
  | vNone
  | vStr (s : String)
  | vList (l : List String)
deriving DecidableEq, Repr

/-- An insertion-ordered string-keyed dictionary, as Python's `dict`. -/
abbrev PyDict := List (String × DetailVal)

/-- `d[k] = v`: replace the value at the first (unique) occurrence of `k`,
else append a fresh binding at the end. -/
def dictSet : PyDict → String → DetailVal → PyDict
  | [], k, v => [(k, v)]
  | (k', v') :: rest, k, v =>
    if k' == k then (k', v) :: rest else (k', v') :: dictSet rest k v

/-- `d.get(k)` distinguished from "key bound to `None`": `none` means the
key is absent. -/
def dictLookup : PyDict → String → Option DetailVal
  | [], _ => none
  | (k', v) :: rest, k => if k' == k then some v else dictLookup rest k

/-- `d.get(k)` as Python sees it: absent keys and keys bound to `None` both
give `None`. -/
def dictGet (d : PyDict) (k : String) : DetailVal :=
  (dictLookup d k).getD .vNone

/-- One step of the `for detail in details` loop of `details_list_to_dict`. -/
def detailStep (acc : PyDict) (detail : List String) : PyDict :=
  match detail with
  | [] => acc
  | [k] => dictSet acc k .vNone
  | [k, v] => dictSet acc k (.vStr v)
  | k :: rest => dictSet acc k (.vList rest)

/-- `details_list_to_dict(details)`. -/
def details_list_to_dict (details : List (List String)) : PyDict :=
  details.foldl detailStep []

/-! ## `parse_details`, `get_financials`, `get_description`, `contains_str` -/

/-- `parse_details(html, class_)`: texts of the `div` descendants of every
`div` with the given class, keeping only nonempty groups. -/
def parse_details (doc : Doc) (cls : String) : PyDict :=
  let feats := findAllDoc (fun n => isTagName "div" n && classMatch cls n) doc
  let details := feats.filterMap (fun f =>
    let detail := (findAllUnder (isTagName "div") f).map getTextS
    if detail.length > 0 then some detail else none)
  details_list_to_dict details

/-- `get_financials(html)`: groups under `id='calculator-section'`; note
that empty groups are *not* filtered here (they are skipped by
`details_list_to_dict` anyway). -/
def get_financials (doc : Doc) : PyDict :=
  let details :=
    match findDoc (fun n => attrEq n "id" "calculator-section") doc with
    | none => []
    | some sec =>
      (findAllUnder (classMatch "d-flex") sec).map
        (fun fx => (findAllUnder (isTagName "div") fx).map getTextS)
  details_list_to_dict details

/-- `get_description(html)`: text of the first `p` with class
`description`. -/
def get_description (doc : Doc) : Option String :=
  (findDoc (fun n => isTagName "p" n && classMatch "description" n) doc).map getTextS

/-- `contains_str(text, s)`: `s.lower() in text.lower() if text else False`.
Both `None` and the empty string are falsy. -/
def contains_str (text : Option String) (s : String) : Bool :=
  match text with
  | none => false
  | some t => if t == "" then false else pyIn (pyLower s) (pyLower t)

/-! ## `parse_listing_html` (scrape.py lines 109-181) -/

def findTitle (doc : Doc) : Option Node := findDoc (isTagName "title") doc

def findMetaDesc (doc : Doc) : Option Node :=
  findDoc (fun n => isTagName "meta" n && attrEq n "name" "description") doc

def findCanonical (doc : Doc) : Option Node :=
  findDoc (fun n => isTagName "link" n && multiAttrMatch n "rel" "canonical") doc

def findOgImage (doc : Doc) : Option Node :=
  findDoc (fun n => isTagName "meta" n && attrEq n "property" "og:image") doc

def findAddrH1 (doc : Doc) : Option Node :=
  findDoc (fun n => isTagName "h1" n && classMatch "fs-14 text-body-secondary fw-bold" n) doc

def findDescP (doc : Doc) : Option Node :=
  findDoc (fun n => isTagName "p" n && classMatch "fs-6 pb-1 text-body" n) doc

/-- `soup.title.string.strip() if soup.title else None`; raises
`AttributeError` when the title element's `.string` is `None`. -/
def titleField (doc : Doc) : Except PyErr (Option String) :=
  match findTitle doc with
  | none => .ok none
  | some t =>
    match nodeString t with
    | none => .error .attributeError
    | some s => .ok (some (pyStrip s))

/-- `meta_description['content'].strip() if meta_description else None`;
`KeyError` when the found tag has no `content` attribute. -/
def descriptionField (doc : Doc) : Except PyErr (Option String) :=
  match findMetaDesc doc with
  | none => .ok none
  | some m =>
    match getAttr m "content" with
    | none => .error .keyError
    | some c => .ok (some (pyStrip c))

/-- `canonical_link['href'] if canonical_link else None`. -/
def canonicalField (doc : Doc) : Except PyErr (Option String) :=
  match findCanonical doc with
  | none => .ok none
  | some l =>
    match getAttr l "href" with
    | none => .error .keyError
    | some h => .ok (some h)

/-- `og_image['content'].strip() if og_image else None`. -/
def imageField (doc : Doc) : Except PyErr (Option String) :=
  match findOgImage doc with
  | none => .ok none
  | some m =>
    match getAttr m "content" with
    | none => .error .keyError
    | some c => .ok (some (pyStrip c))

/-- The last `'/'`-separated segment (`s.split('/')[-1]`). -/
def lastSeg (s : String) : String := (pySplit s "/").getLastD ""

/-- The address block (lines 128-139): the specially-classed `h1`'s text,
else the canonical URL's slug with hyphens spaced out, upper-cased. -/
def addressField (doc : Doc) (canonical_url : Option String) : Option String :=
  match findAddrH1 doc with
  | some h => some (getTextS h)
  | none =>
    match canonical_url with
    | some cu => some (pyUpper (dashToSpace (lastSeg cu)))
    | none => none

/-- Leftmost match of the regex `(\d+)\s*word` over a character list,
returning the value of group 1.  `re.search` scans start positions left to
right; at a digit position the greedy `\d+` takes the maximal digit run
(backtracking cannot help: after giving back a digit, `\s*` and the literal
both fail on a digit), then `\s*` takes maximal whitespace, then the
literal must follow.  The optional trailing `s?` of `beds?`/`baths?` does
not affect whether `bed`/`bath` matches nor group 1. -/
def searchNumThen (word : List Char) : List Char → Option Nat
  | [] => none
  | c :: cs =>
    if c.isDigit then
      let digits := (c :: cs).takeWhile Char.isDigit
      let rest := ((c :: cs).dropWhile Char.isDigit).dropWhile isPyWs
      if startsL word rest then some (digitsVal digits) else searchNumThen word cs
    else searchNumThen word cs

/-- Leftmost match of `([\d,]+)\s*sqft`, returning the raw group 1
characters (digits and commas). -/
def searchSqftGroup : List Char → Option (List Char)
  | [] => none
  | c :: cs =>
    if c.isDigit || c = ',' then
      let run := (c :: cs).takeWhile (fun x => x.isDigit || x = ',')
      let rest := ((c :: cs).dropWhile (fun x => x.isDigit || x = ',')).dropWhile isPyWs
      if startsL "sqft".toList rest then some run else searchSqftGroup cs
    else searchSqftGroup cs

/-- `int(bed_match.group(1)) if bed_match else None`. -/
def bedsOf (t : Option String) : Option Int :=
  t.bind fun s => (searchNumThen "bed".toList s.toList).map Int.ofNat

/-- `int(bath_match.group(1)) if bath_match else None`. -/
def bathsOf (t : Option String) : Option Int :=
  t.bind fun s => (searchNumThen "bath".toList s.toList).map Int.ofNat

/-- `int(sqft_match.group(1).replace(',', '')) if sqft_match else None`;
`int('')` raises `ValueError` when group 1 is all commas. -/
def sqftOf (t : Option String) : Except PyErr (Option Int) :=
  match t with
  | none => .ok none
  | some s =>
    match searchSqftGroup s.toList with
    | none => .ok none
    | some g => (pyIntE (String.mk (g.filter (fun c => c ≠ ',')))).map some

/-- The text the three regex searches run over: `get_text(strip=True)` of
the specially-classed paragraph, absent when the paragraph is missing. -/
def descTextOf (doc : Doc) : Option String := (findDescP doc).map getTextS

/-- The bed/bath/sqft block (lines 141-153). -/
def bbsField (doc : Doc) : Except PyErr (Option Int × Option Int × Option Int) :=
  match descTextOf doc with
  | none => .ok (none, none, none)
  | some dt =>
    match sqftOf (some dt) with
    | .error e => .error e
    | .ok sq => .ok (bedsOf (some dt), bathsOf (some dt), sq)

/-- The city block (lines 155-169), parameterised by the two local
variables it reads. -/
def cityOf (address canonical_url : Option String) : Option String :=
  match address with
  | none => none
  | some a =>
    if a == "" then none
    else
      let parts := (pySplit a ",").map pyStrip
      if 2 ≤ parts.length then some (parts.getD (parts.length - 2) "")
      else
        match canonical_url with
        | none => none
        | some cu =>
          let sp := pySplit (lastSeg cu) "-"
          if 2 ≤ sp.length then
            some (if 3 ≤ sp.length then pyUpper (sp.getD (sp.length - 3) "")
                  else pyUpper (sp.headD ""))
          else none

/-- The record returned by `parse_listing_html`. -/
structure ListingData where
  title : Option String
  description : Option String
  address : Option String
  city : Option String
  image_url : Option String
  bedrooms : Option Int
  bathrooms : Option Int
  sqft : Option Int
  canonical_url : Option String
deriving DecidableEq, Repr

/-- `parse_listing_html(html)`, with the source's evaluation (and hence
exception) order. -/
def parse_listing_html (doc : Doc) : Except PyErr ListingData := do
  let title ← titleField doc
  let description ← descriptionField doc
  let canonical_url ← canonicalField doc
  let image_url ← imageField doc
  let address := addressField doc canonical_url
  let (bed, bath, sqft) ← bbsField doc
  let city := cityOf address canonical_url
  pure ⟨title, description, address, city, image_url, bed, bath, sqft, canonical_url⟩

/-! ## The pipeline driver (`__main__`, scrape.py lines 255-365)

Markup is identified with its parsed tree (`Doc`); the network is an oracle
`net : String → Doc` mapping a URL to the markup its fetch yields. -/

/-- One output-table row, in the column order of `columns`
(lines 284-298). -/
structure Row where
  contains_dock : Bool
  city : Option String
  url : Option String
  address : Option String
  bedrooms : Option Int
  bathrooms : Option Int
  sqft : Option Int
  listing_price : DetailVal
  cash_down_payment : DetailVal
  loan_type : DetailVal
  rate : DetailVal
  remaining_balance : DetailVal
  monthly_payment : DetailVal
deriving DecidableEq, Repr

/-- The record assembled for one listing's markup (lines 332-361);
only `parse_listing_html` can raise. -/
def recordOf (doc : Doc) : Except PyErr Row := do
  let ld ← parse_listing_html doc
  let loanF := parse_details doc "loan-feature"
  let homeF := parse_details doc "home-feature"
  let fin := get_financials doc
  let desc := get_description doc
  pure
    { contains_dock := contains_str desc "dock"
      city := ld.city
      url := ld.canonical_url
      address := ld.address
      bedrooms := ld.bedrooms
      bathrooms := ld.bathrooms
      sqft := ld.sqft
      listing_price := dictGet fin "Listing price"
      cash_down_payment := dictGet fin "Your cash down payment"
      loan_type := dictGet loanF "Loan Type"
      rate := dictGet loanF "Rate"
      remaining_balance := dictGet loanF "Remaining balance"
      monthly_payment := dictGet homeF "Total" }

/-- The on-disk HTML cache: file name to stored markup, insertion order. -/
abbrev Cache := List (String × Doc)

/-- Reading a cache file (`os.path.exists` + `open(...).read()`). -/
def cacheGet (c : Cache) (fname : String) : Option Doc :=
  (c.find? (fun p => p.1 == fname)).map (fun p => p.2)

/-- Writing a cache file (`open(fname, 'w').write(html)`): unconditionally
replaces any previous content. -/
def cachePut : Cache → String → Doc → Cache
  | [], fname, m => [(fname, m)]
  | (f, m') :: rest, fname, m =>
    if f == fname then (f, m) :: rest else (f, m') :: cachePut rest fname m

/-- The output table: `none` models the fresh `pd.DataFrame(columns=[])`
(no `url` column at all); `some rows` a frame with the 13 columns. -/
structure DriverState where
  cache : Cache
  table : Option (List Row)
deriving DecidableEq, Repr

/-- Lines 299-303: start from the no-column frame, replaced by the loaded
rows when `scrape.csv` exists. -/
def initialTable (csv : Option (List Row)) : Option (List Row) :=
  match csv with
  | some rows => some rows
  | none => none

def baseUrl : String := "https://www.withroam.com"

/-- `f"cache/{home_url.split('/')[-1]}.html"`. -/
def cacheName (home_url : String) : String := "cache/" ++ lastSeg home_url ++ ".html"

/-- The outcome of one iteration of the `for link in listing_links` loop:
the state after it, the cache files written during it, and the exception
that aborted it, if any (effects before the raise are kept). -/
structure StepOut where
  state : DriverState
  wrote : List (String × Doc)
  err : Option PyErr
deriving DecidableEq, Repr

/-- One iteration of the listing-processing loop (lines 304-365):
`df['url']` raises `KeyError` on the no-column frame; an already-recorded
url is skipped; otherwise the markup is read from cache or the network,
unconditionally written back to the cache file, parsed, and the record
appended to the table (which is then persisted). -/
def processLink (net : String → Doc) (st : DriverState) (link : String) : StepOut :=
  let home_url := baseUrl ++ link
  match st.table with
  | none => ⟨st, [], some .keyError⟩
  | some rows =>
    if rows.any (fun r => r.url == some home_url) then ⟨st, [], none⟩
    else
      let fname := cacheName home_url
      let html :=
        match cacheGet st.cache fname with
        | some m => m
        | none => net home_url
      let cache' := cachePut st.cache fname html
      match recordOf html with
      | .error e => ⟨⟨cache', some rows⟩, [(fname, html)], some e⟩
      | .ok row => ⟨⟨cache', some (rows ++ [row])⟩, [(fname, html)], none⟩

/-- The listing-processing loop over the collected links; an exception
aborts the run, keeping all effects performed so far. -/
def runLinks (net : String → Doc) : DriverState → List String → DriverState × Option PyErr
  | st, [] => (st, none)
  | st, l :: ls =>
    let so := processLink net st l
    match so.err with
    | some e => (so.state, some e)
    | none => runLinks net so.state ls

/-- The rows of a table (the no-column frame has none). -/
def tableRows (t : Option (List Row)) : List Row := t.getD []

/-- "At most one record per url": the non-null values of the `url` column
are pairwise distinct. -/
def urlsNodup (rows : List Row) : Prop := (rows.filterMap Row.url).Nodup

instance (rows : List Row) : Decidable (urlsNodup rows) := by
  unfold urlsNodup
  infer_instance

/-! ## C4: `details_list_to_dict` -/

/-- The value the spec assigns to a (nonempty) group: `None` for a
singleton, the second element for a pair, the tail for longer groups. -/
def groupVal : List String → DetailVal
  | [] => .vNone
  | [_] => .vNone
  | [_, v] => .vStr v
  | _ :: rest => .vList rest

theorem dictLookup_dictSet (d : PyDict) (k k' : String) (v : DetailVal) :
    dictLookup (dictSet d k v) k' = if k == k' then some v else dictLookup d k' := by
  induction d with
  | nil => simp [dictSet, dictLookup]
  | cons hd tl ih =>
    obtain ⟨a, b⟩ := hd
    by_cases hak : a = k
    · subst hak
      simp [dictSet, dictLookup]
      by_cases h : a = k' <;> simp [h]
    · simp only [dictSet, beq_iff_eq, hak, if_false, dictLookup, ih]
      by_cases h1 : k = k' <;> by_cases h2 : a = k' <;> simp_all

theorem dictLookup_detailStep (acc : PyDict) (g : List String) (k : String) :
    dictLookup (detailStep acc g) k =
      if g.head? == some k then some (groupVal g) else dictLookup acc k := by
  match g with
  | [] => simp [detailStep, List.head?]
  | [a] =>
    simp only [detailStep, groupVal, dictLookup_dictSet, List.head?]
    by_cases h : a = k <;> simp [h]
  | [a, b] =>
    simp only [detailStep, groupVal, dictLookup_dictSet, List.head?]
    by_cases h : a = k <;> simp [h]
  | a :: b :: c :: rest =>
    simp only [detailStep, groupVal, dictLookup_dictSet, List.head?]
    by_cases h : a = k <;> simp [h]

theorem dictLookup_foldl_detailStep (ds : List (List String)) (acc : PyDict) (k : String) :
    dictLookup (ds.foldl detailStep acc) k =
      match (ds.filter (fun g => g.head? == some k)).getLast? with
      | some g => some (groupVal g)
      | none => dictLookup acc k := by
  induction ds generalizing acc with
  | nil => rfl
  | cons g ds ih =>
    rw [List.foldl_cons, ih]
    by_cases hg : (g.head? == some k) = true
    · simp only [List.filter_cons, hg, if_true]
      cases hl : (ds.filter (fun g => g.head? == some k)).getLast? with
      | some g' =>
        simp [List.getLast?_cons, List.getLastD_eq_getLast?, hl]
      | none =>
        simp [List.getLast?_cons, List.getLastD_eq_getLast?, hl,
          dictLookup_detailStep, hg]
    · simp only [List.filter_cons, hg, if_false]
      cases hl : (ds.filter (fun g => g.head? == some k)).getLast? with
      | some g' => simp [hl]
      | none => simp [hl, dictLookup_detailStep, hg]

/-- C4: each group's first element is mapped to `None` (singleton group),
the second element (pair), or the whole tail (longer group); a later group
with the same head overwrites an earlier one — i.e. looking a key up in
`details_list_to_dict details` yields the value of the *last* group headed
by that key.  The spec's three concrete examples, plus an explicit
overwrite example. -/
theorem details_dict_spec :
    (∀ ds k, dictLookup (details_list_to_dict ds) k =
      ((ds.filter (fun g => g.head? == some k)).getLast?).map groupVal)
    ∧ details_list_to_dict [["Loan Type", "Fixed"]] = [("Loan Type", .vStr "Fixed")]
    ∧ details_list_to_dict [["Rate"]] = [("Rate", .vNone)]
    ∧ details_list_to_dict [["Total", "A", "B"]] = [("Total", .vList ["A", "B"])]
    ∧ details_list_to_dict [["K", "a"], ["K", "b"]] = [("K", .vStr "b")] := by
  refine ⟨fun ds k => ?_, by decide, by decide, by decide, by decide⟩
  rw [details_list_to_dict, dictLookup_foldl_detailStep]
  cases (ds.filter (fun g => g.head? == some k)).getLast? <;> simp [dictLookup]

/-! ## C7: `find_listing_links` -/

theorem find_listing_links_foldl (ns : List Node) (acc : List String) :
    (ns.foldl (fun acc n =>
      match getAttr n "href" with
      | some h => if pyStartsWith "/listing/" h then acc ++ [h] else acc
      | none => acc) acc)
    = acc ++ (ns.filterMap (fun n => getAttr n "href")).filter
        (fun h => pyStartsWith "/listing/" h) := by
  induction ns generalizing acc with
  | nil => simp
  | cons n ns ih =>
    simp only [List.foldl_cons, List.filterMap_cons]
    cases ha : getAttr n "href" with
    | none => simp [ih]
    | some h =>
      by_cases hs : pyStartsWith "/listing/" h = true <;>
        simp [hs, ih, List.filter_cons]

/-- C7: `find_listing_links` returns exactly the anchor `href` targets that
begin with `/listing/`, as the in-order filter of the document-order list
of anchor hrefs (hence no deduplication), and every returned string has the
prefix `/listing/`. -/
theorem listing_links_spec :
    (∀ doc, find_listing_links doc =
      (anchorHrefs doc).filter (fun h => pyStartsWith "/listing/" h))
    ∧ (∀ doc h, h ∈ find_listing_links doc → pyStartsWith "/listing/" h = true) := by
  have h1 : ∀ doc, find_listing_links doc =
      (anchorHrefs doc).filter (fun h => pyStartsWith "/listing/" h) := by
    intro doc
    rw [find_listing_links, anchorHrefs, find_listing_links_foldl]
    simp
  refine ⟨h1, fun doc h hmem => ?_⟩
  rw [h1 doc] at hmem
  exact (List.mem_filter.mp hmem).2

def linkDoc : Doc := [.elem "a" [("href", "/listing/abc")] [.text "x"]]

theorem listing_links_spec_witness :
    pyStartsWith "/listing/" "/listing/abc" = true :=
  listing_links_spec.2 linkDoc "/listing/abc" (by decide)

/-! ## C8: the dock flag -/

theorem startsL_iff : ∀ n h : List Char, startsL n h = true ↔ n <+: h
  | [], h => by simp [startsL]
  | a :: as, [] => by simp [startsL]
  | a :: as, b :: bs => by
    simp [startsL, startsL_iff as bs, List.cons_prefix_cons, And.comm]

theorem substrL_iff : ∀ n h : List Char, substrL n h = true ↔ n <:+: h
  | n, [] => by simp [substrL, startsL_iff]
  | n, c :: cs => by
    rw [substrL, List.infix_cons_iff]
    simp [startsL_iff, substrL_iff n cs]

/-- C8: `contains_str text "dock"` is true exactly when the lower-cased
description has the four characters `dock` as a contiguous substring, and
it is `false` (a boolean, never null) when the description is `None`; the
spec's concrete examples; and the driver stores exactly
`contains_str(get_description(html), 'dock')` in the record. -/
theorem dock_flag_spec :
    (∀ t : String, contains_str (some t) "dock" = true ↔
      ('d' :: 'o' :: 'c' :: 'k' :: []) <:+: (pyLower t).toList)
    ∧ contains_str none "dock" = false
    ∧ contains_str (some "Private DOCK included") "dock" = true
    ∧ (∀ doc r, recordOf doc = .ok r →
        r.contains_dock = contains_str (get_description doc) "dock") := by
  refine ⟨fun t => ?_, rfl, by decide, fun doc r h => ?_⟩
  · by_cases ht : t = ""
    · subst ht
      simp only [contains_str]
      rw [if_pos (by rfl)]
      constructor
      · intro h; cases h
      · intro h
        have : (['d', 'o', 'c', 'k'] : List Char).length ≤ ((pyLower "").toList).length :=
          h.length_le
        simp [pyLower] at this
    · simp only [contains_str]
      rw [if_neg (by simpa using ht), pyIn, substrL_iff]
      exact Iff.rfl
  · unfold recordOf at h
    cases hp : parse_listing_html doc with
    | error e => rw [hp] at h; exact absurd h (by simp [Except.bind])
    | ok ld =>
      rw [hp] at h
      simp only [Except.bind, bind, pure, Except.pure] at h
      cases h
      rfl

def dockDoc : Doc := [.elem "p" [("class", "description")] [.text "Private DOCK included"]]

def dockRow : Row :=
  { contains_dock := true, city := none, url := none, address := none,
    bedrooms := none, bathrooms := none, sqft := none,
    listing_price := .vNone, cash_down_payment := .vNone, loan_type := .vNone,
    rate := .vNone, remaining_balance := .vNone, monthly_payment := .vNone }

theorem dock_flag_spec_witness :
    dockRow.contains_dock = contains_str (get_description dockDoc) "dock" :=
  dock_flag_spec.2.2.2 dockDoc dockRow (by decide)

/-! ## Field-wise characterisation of `parse_listing_html` -/

theorem parse_ok_fields (doc : Doc) (r : ListingData)
    (h : parse_listing_html doc = .ok r) :
    titleField doc = .ok r.title ∧ descriptionField doc = .ok r.description ∧
    canonicalField doc = .ok r.canonical_url ∧ imageField doc = .ok r.image_url ∧
    r.address = addressField doc r.canonical_url ∧
    bbsField doc = .ok (r.bedrooms, r.bathrooms, r.sqft) ∧
    r.city = cityOf r.address r.canonical_url := by
  unfold parse_listing_html at h
  cases h1 : titleField doc with
  | error e =>
    rw [h1] at h
    exact absurd h (by simp [bind, Except.bind, Functor.map, Except.map])
  | ok t =>
  rw [h1] at h
  cases h2 : descriptionField doc with
  | error e =>
    rw [h2] at h
    exact absurd h (by simp [bind, Except.bind, Functor.map, Except.map])
  | ok d =>
  rw [h2] at h
  cases h3 : canonicalField doc with
  | error e =>
    rw [h3] at h
    exact absurd h (by simp [bind, Except.bind, Functor.map, Except.map])
  | ok cu =>
  rw [h3] at h
  cases h4 : imageField doc with
  | error e =>
    rw [h4] at h
    exact absurd h (by simp [bind, Except.bind, Functor.map, Except.map])
  | ok iu =>
  rw [h4] at h
  cases h5 : bbsField doc with
  | error e =>
    rw [h5] at h
    exact absurd h (by simp [bind, Except.bind, Functor.map, Except.map])
  | ok bbs =>
  rw [h5] at h
  obtain ⟨b, ba, sq⟩ := bbs
  simp only [bind, Except.bind, Functor.map, Except.map, pure, Except.pure] at h
  cases h
  exact ⟨rfl, rfl, rfl, rfl, rfl, rfl, rfl⟩

/-! ## C6: bed/bath/sqft extraction -/

/-- C6: when `parse_listing_html` succeeds, bedrooms and bathrooms are
exactly the results of the (independent) `(\d+)\s*beds?` and
`(\d+)\s*baths?` searches over the specially-classed paragraph's text, the
sqft field is the comma-stripped integer of the `([\d,]+)\s*sqft` search,
a missing paragraph gives all three null, and the spec's concrete example
holds. -/
theorem bed_bath_sqft_spec :
    (∀ doc r, parse_listing_html doc = .ok r →
      r.bedrooms = bedsOf (descTextOf doc) ∧ r.bathrooms = bathsOf (descTextOf doc) ∧
      sqftOf (descTextOf doc) = .ok r.sqft ∧
      (findDescP doc = none → r.bedrooms = none ∧ r.bathrooms = none ∧ r.sqft = none))
    ∧ bedsOf (some "3 beds 2 baths 1,850 sqft") = some 3
    ∧ bathsOf (some "3 beds 2 baths 1,850 sqft") = some 2
    ∧ sqftOf (some "3 beds 2 baths 1,850 sqft") = .ok (some 1850) := by
  refine ⟨fun doc r h => ?_, by decide, by decide, by decide⟩
  obtain ⟨-, -, -, -, -, h6, -⟩ := parse_ok_fields doc r h
  unfold bbsField at h6
  cases hd : descTextOf doc with
  | none =>
    rw [hd] at h6
    dsimp only at h6
    simp only [Except.ok.injEq, Prod.mk.injEq] at h6
    obtain ⟨hb, hba, hsq⟩ := h6
    exact ⟨hb.symm, hba.symm, by rw [← hsq]; rfl, fun _ => ⟨hb.symm, hba.symm, hsq.symm⟩⟩
  | some dt =>
    rw [hd] at h6
    dsimp only at h6
    cases hs : sqftOf (some dt) with
    | error e =>
      rw [hs] at h6
      exact absurd h6 (by simp)
    | ok sq =>
      rw [hs] at h6
      dsimp only at h6
      simp only [Except.ok.injEq, Prod.mk.injEq] at h6
      obtain ⟨hb, hba, hsq⟩ := h6
      refine ⟨hb.symm, hba.symm, by rw [hsq], fun hnone => ?_⟩
      rw [descTextOf, hnone] at hd
      cases hd

def bbsDoc : Doc :=
  [.elem "p" [("class", "fs-6 pb-1 text-body")] [.text "3 beds 2 baths 1,850 sqft"]]

def bbsData : ListingData :=
  { title := none, description := none, address := none, city := none,
    image_url := none, bedrooms := some 3, bathrooms := some 2,
    sqft := some 1850, canonical_url := none }

theorem bed_bath_sqft_spec_witness :
    bbsData.bedrooms = bedsOf (descTextOf bbsDoc) ∧
    bbsData.bathrooms = bathsOf (descTextOf bbsDoc) ∧
    sqftOf (descTextOf bbsDoc) = .ok bbsData.sqft ∧
    (findDescP bbsDoc = none →
      bbsData.bedrooms = none ∧ bbsData.bathrooms = none ∧ bbsData.sqft = none) :=
  bed_bath_sqft_spec.1 bbsDoc bbsData (by decide)

/-! ## C5: the city rule -/

/-- The city rule exactly as the claim states it (for comparison with the
code's `cityOf`): trimmed second-to-last comma part when the address has at
least two parts, otherwise derived from the canonical URL's slug — the
third-from-last hyphen token upper-cased when the slug has at least 3
tokens, else the first token upper-cased. -/
def claimCity (address canonical_url : Option String) : Option String :=
  let parts := (pySplit (address.getD "") ",").map pyStrip
  if 2 ≤ parts.length then some (parts.getD (parts.length - 2) "")
  else
    match canonical_url with
    | none => none
    | some cu =>
      let sp := pySplit (lastSeg cu) "-"
      if 3 ≤ sp.length then some (pyUpper (sp.getD (sp.length - 3) ""))
      else some (pyUpper (sp.headD ""))

def cityCexDoc : Doc :=
  [.elem "h1" [("class", "fs-14 text-body-secondary fw-bold")] [.text "NoComma"],
   .elem "link" [("rel", "canonical"), ("href", "https://x/slugtok")] []]

def cityCexData : ListingData :=
  { title := none, description := none, address := some "NoComma", city := none,
    image_url := none, bedrooms := none, bathrooms := none, sqft := none,
    canonical_url := some "https://x/slugtok" }

/-- C5 counterexample: for an address with no comma and a canonical URL
whose slug has a single hyphen token, the code leaves city null (the
fallback is guarded by `len(slug_parts) >= 2`), while the claim's rule
demands the first slug token upper-cased. -/
theorem city_rule_counterexample :
    parse_listing_html cityCexDoc = .ok cityCexData
    ∧ cityCexData.city = none
    ∧ claimCity cityCexData.address cityCexData.canonical_url = some "SLUGTOK" :=
  ⟨by decide, rfl, by decide⟩

/-- C5 amended: city is `cityOf address canonical_url`, which matches the
claim except that (a) a null or empty address always yields a null city
(no URL fallback), and (b) the URL fallback yields a value only when the
slug has at least two hyphen tokens — a single-token slug yields null. -/
theorem city_rule_amended :
    (∀ doc r, parse_listing_html doc = .ok r →
      r.city = cityOf r.address r.canonical_url)
    ∧ (∀ a cu, 2 ≤ (pySplit a ",").length →
        cityOf (some a) cu =
          some (((pySplit a ",").map pyStrip).getD
            (((pySplit a ",").map pyStrip).length - 2) ""))
    ∧ (∀ cu, cityOf none cu = none)
    ∧ (∀ cu, cityOf (some "") cu = none)
    ∧ (∀ a, (pySplit a ",").length < 2 → cityOf (some a) none = none)
    ∧ (∀ a cu, a ≠ "" → (pySplit a ",").length < 2 →
        (pySplit (lastSeg cu) "-").length < 2 → cityOf (some a) (some cu) = none)
    ∧ (∀ a cu, a ≠ "" → (pySplit a ",").length < 2 →
        2 ≤ (pySplit (lastSeg cu) "-").length →
        cityOf (some a) (some cu) =
          some (if 3 ≤ (pySplit (lastSeg cu) "-").length
                then pyUpper ((pySplit (lastSeg cu) "-").getD
                  ((pySplit (lastSeg cu) "-").length - 3) "")
                else pyUpper ((pySplit (lastSeg cu) "-").headD "")))
    ∧ cityOf (some "123 Main St, Gainesville, GA 30501") none = some "Gainesville" := by
  refine ⟨fun doc r h => (parse_ok_fields doc r h).2.2.2.2.2.2,
    fun a cu hlen => ?_, fun cu => rfl, fun cu => rfl, fun a hlen => ?_,
    fun a cu ha hlen hsp => ?_, fun a cu ha hlen hsp => ?_, by decide⟩
  · have hae : (a == "") = false := by
      apply beq_eq_false_iff_ne.mpr
      intro hh
      subst hh
      exact absurd hlen (by decide)
    simp [cityOf, hae, hlen]
  · by_cases ha : a = ""
    · subst ha; rfl
    · have hae : (a == "") = false := beq_eq_false_iff_ne.mpr ha
      have h2 : ¬ 2 ≤ (pySplit a ",").length := by omega
      simp [cityOf, hae, h2]
  · have hae : (a == "") = false := beq_eq_false_iff_ne.mpr ha
    have h2 : ¬ 2 ≤ (pySplit a ",").length := by omega
    have h3 : ¬ 2 ≤ (pySplit (lastSeg cu) "-").length := by omega
    simp [cityOf, hae, h2, h3]
  · have hae : (a == "") = false := beq_eq_false_iff_ne.mpr ha
    have h2 : ¬ 2 ≤ (pySplit a ",").length := by omega
    simp [cityOf, hae, h2, hsp]

def cityDocW : Doc :=
  [.elem "h1" [("class", "fs-14 text-body-secondary fw-bold")]
    [.text "123 Main St, Gainesville, GA 30501"]]

def cityDataW : ListingData :=
  { title := none, description := none,
    address := some "123 Main St, Gainesville, GA 30501", city := some "Gainesville",
    image_url := none, bedrooms := none, bathrooms := none, sqft := none,
    canonical_url := none }

theorem city_rule_amended_witness :
    cityDataW.city = cityOf cityDataW.address cityDataW.canonical_url :=
  city_rule_amended.1 cityDocW cityDataW (by decide)

/-! ## C3: `get_maxpageid` -/

/-- C3 counterexample: on markup with no ellipsis anchor, `get_maxpageid`
does not fail with any error — the `for` loop body never runs and the
function returns `None` successfully. -/
theorem maxpage_counterexample :
    get_maxpageid [] = .ok none
    ∧ ¬ (∃ e : PyErr, get_maxpageid [] = .error e) := by
  refine ⟨rfl, ?_⟩
  rintro ⟨e, he⟩
  rw [show get_maxpageid [] = .ok none from rfl] at he
  exact Except.noConfusion he

def ellipsisAnchorW : Node := .elem "a" [("href", "/state/GA?page=42&x=1")] [.text "..."]

def ellipsisDocW : Doc := [ellipsisAnchorW]

/-- C3 amended: with no ellipsis anchor `get_maxpageid` returns `None`
without raising; otherwise only the first ellipsis anchor is consulted and
the result is the integer read after the first `'page='` of the anchor's
serialised markup (its link target in practice), raising `IndexError` when
`'page='` is absent and `ValueError` when the value is not numeric. -/
theorem maxpage_amended :
    (∀ doc, ellipsisAnchors doc = [] → get_maxpageid doc = .ok none)
    ∧ (∀ doc a rest, ellipsisAnchors doc = a :: rest →
        get_maxpageid doc = (extractPageVal (render a)).map some)
    ∧ get_maxpageid ellipsisDocW = .ok (some 42)
    ∧ extractPageVal "<a href=\x22/state/GA\x22>...</a>" = .error .indexError
    ∧ extractPageVal "<a href=\x22/x?page=abc\x22>...</a>" = .error .valueError := by
  refine ⟨fun doc hnone => ?_, fun doc a rest hcons => ?_, by decide, by decide, by decide⟩
  · unfold get_maxpageid
    rw [hnone]
  · unfold get_maxpageid
    rw [hcons]

theorem maxpage_amended_witness :
    get_maxpageid ellipsisDocW = (extractPageVal (render ellipsisAnchorW)).map some :=
  maxpage_amended.2.1 ellipsisDocW ellipsisAnchorW [] (by decide)

/-! ## C2: totality of the field extractor -/

def optAll {α : Type} (f : α → Bool) : Option α → Bool
  | none => true
  | some x => f x

def isOkE {α : Type} : Except PyErr α → Bool
  | .ok _ => true
  | .error _ => false

def metaCexDoc : Doc := [.elem "meta" [("name", "description")] []]

/-- C2 counterexample: a meta description tag that is *present* but lacks
its `content` attribute makes `parse_listing_html` raise `KeyError` — the
extractor is not total, so "never raises" fails. -/
theorem parse_total_counterexample :
    parse_listing_html metaCexDoc = .error .keyError := by decide

theorem parse_eq_ok (doc : Doc) (t d cu iu : Option String)
    (bbs : Option Int × Option Int × Option Int)
    (h1 : titleField doc = .ok t) (h2 : descriptionField doc = .ok d)
    (h3 : canonicalField doc = .ok cu) (h4 : imageField doc = .ok iu)
    (h5 : bbsField doc = .ok bbs) :
    parse_listing_html doc =
      .ok ⟨t, d, addressField doc cu, cityOf (addressField doc cu) cu, iu,
           bbs.1, bbs.2.1, bbs.2.2, cu⟩ := by
  unfold parse_listing_html
  rw [h1, h2, h3, h4, h5]
  obtain ⟨b, ba, sq⟩ := bbs
  simp [bind, Except.bind, Functor.map, Except.map, pure, Except.pure]

/-- C2 amended: `parse_listing_html` never raises *provided* every found
source element carries what the code dereferences — a found title has a
`.string`, a found description/og:image meta has `content`, a found
canonical link has `href`, and the sqft match (if any) converts to an
integer; under these conditions extraction succeeds and each field whose
source element is missing is null. -/
theorem parse_total_amended (doc : Doc)
    (h1 : optAll (fun t => (nodeString t).isSome) (findTitle doc) = true)
    (h2 : optAll (fun m => (getAttr m "content").isSome) (findMetaDesc doc) = true)
    (h3 : optAll (fun l => (getAttr l "href").isSome) (findCanonical doc) = true)
    (h4 : optAll (fun m => (getAttr m "content").isSome) (findOgImage doc) = true)
    (h5 : optAll (fun p => isOkE (sqftOf (some (getTextS p)))) (findDescP doc) = true) :
    ∃ r, parse_listing_html doc = .ok r
      ∧ (findTitle doc = none → r.title = none)
      ∧ (findMetaDesc doc = none → r.description = none)
      ∧ (findCanonical doc = none → r.canonical_url = none)
      ∧ (findOgImage doc = none → r.image_url = none)
      ∧ (findDescP doc = none → r.bedrooms = none ∧ r.bathrooms = none ∧ r.sqft = none)
      ∧ (findAddrH1 doc = none → findCanonical doc = none →
          r.address = none ∧ r.city = none) := by
  obtain ⟨tv, ht1, ht2⟩ :
      ∃ tv, titleField doc = .ok tv ∧ (findTitle doc = none → tv = none) := by
    cases ht : findTitle doc with
    | none => exact ⟨none, by unfold titleField; rw [ht], fun _ => rfl⟩
    | some t =>
      rw [ht] at h1
      simp only [optAll, Option.isSome_iff_exists] at h1
      obtain ⟨s, hs⟩ := h1
      exact ⟨some (pyStrip s), by unfold titleField; rw [ht]; simp [hs],
        fun hc => Option.noConfusion hc⟩
  obtain ⟨dv, hd1, hd2⟩ :
      ∃ dv, descriptionField doc = .ok dv ∧ (findMetaDesc doc = none → dv = none) := by
    cases ht : findMetaDesc doc with
    | none => exact ⟨none, by unfold descriptionField; rw [ht], fun _ => rfl⟩
    | some m =>
      rw [ht] at h2
      simp only [optAll, Option.isSome_iff_exists] at h2
      obtain ⟨s, hs⟩ := h2
      exact ⟨some (pyStrip s), by unfold descriptionField; rw [ht]; simp [hs],
        fun hc => Option.noConfusion hc⟩
  obtain ⟨cuv, hc1, hc2⟩ :
      ∃ cuv, canonicalField doc = .ok cuv ∧ (findCanonical doc = none → cuv = none) := by
    cases ht : findCanonical doc with
    | none => exact ⟨none, by unfold canonicalField; rw [ht], fun _ => rfl⟩
    | some l =>
      rw [ht] at h3
      simp only [optAll, Option.isSome_iff_exists] at h3
      obtain ⟨s, hs⟩ := h3
      exact ⟨some s, by unfold canonicalField; rw [ht]; simp [hs],
        fun hc => Option.noConfusion hc⟩
  obtain ⟨iuv, hi1, hi2⟩ :
      ∃ iuv, imageField doc = .ok iuv ∧ (findOgImage doc = none → iuv = none) := by
    cases ht : findOgImage doc with
    | none => exact ⟨none, by unfold imageField; rw [ht], fun _ => rfl⟩
    | some m =>
      rw [ht] at h4
      simp only [optAll, Option.isSome_iff_exists] at h4
      obtain ⟨s, hs⟩ := h4
      exact ⟨some (pyStrip s), by unfold imageField; rw [ht]; simp [hs],
        fun hc => Option.noConfusion hc⟩
  obtain ⟨bv, hb1, hb2⟩ :
      ∃ bv, bbsField doc = .ok bv ∧ (findDescP doc = none → bv = (none, none, none)) := by
    cases hp : findDescP doc with
    | none =>
      refine ⟨(none, none, none), ?_, fun _ => rfl⟩
      unfold bbsField descTextOf
      rw [hp]
      rfl
    | some p =>
      rw [hp] at h5
      simp only [optAll] at h5
      cases hs : sqftOf (some (getTextS p)) with
      | error e => rw [hs] at h5; simp [isOkE] at h5
      | ok sq =>
        refine ⟨(bedsOf (some (getTextS p)), bathsOf (some (getTextS p)), sq), ?_,
          fun hc => Option.noConfusion hc⟩
        unfold bbsField descTextOf
        rw [hp]
        dsimp only [Option.map]
        rw [hs]
  refine ⟨_, parse_eq_ok doc tv dv cuv iuv bv ht1 hd1 hc1 hi1 hb1,
    fun hh => ht2 hh, fun hh => hd2 hh, fun hh => hc2 hh, fun hh => hi2 hh,
    fun hh => ?_, fun hh hcn => ?_⟩
  · rw [hb2 hh]
    exact ⟨rfl, rfl, rfl⟩
  · have hcu : cuv = none := hc2 hcn
    subst hcu
    have haddr : addressField doc none = none := by
      unfold addressField
      rw [hh]
    constructor
    · exact haddr
    · show cityOf (addressField doc none) none = none
      rw [haddr]
      rfl

theorem parse_total_amended_witness :
    ∃ r, parse_listing_html ([] : Doc) = .ok r
      ∧ (findTitle ([] : Doc) = none → r.title = none)
      ∧ (findMetaDesc ([] : Doc) = none → r.description = none)
      ∧ (findCanonical ([] : Doc) = none → r.canonical_url = none)
      ∧ (findOgImage ([] : Doc) = none → r.image_url = none)
      ∧ (findDescP ([] : Doc) = none →
          r.bedrooms = none ∧ r.bathrooms = none ∧ r.sqft = none)
      ∧ (findAddrH1 ([] : Doc) = none → findCanonical ([] : Doc) = none →
          r.address = none ∧ r.city = none) :=
  parse_total_amended [] rfl rfl rfl rfl rfl

/-! ## C10: fresh-run `KeyError` -/

/-- C10: when no `scrape.csv` exists the driver starts from the no-column
frame, and the very first link's `df['url']` membership check raises
`KeyError`, aborting the loop with the state unchanged — no record can
ever be appended on a fresh run with links to process. -/
theorem fresh_table_keyerror (net : String → Doc) (cache : Cache) (l : String)
    (ls : List String) :
    runLinks net ⟨cache, initialTable none⟩ (l :: ls) =
      (⟨cache, initialTable none⟩, some .keyError)
    ∧ tableRows (runLinks net ⟨cache, initialTable none⟩ (l :: ls)).1.table = [] :=
  ⟨rfl, rfl⟩

/-! ## C9: cache reads and writes -/

theorem cacheGet_cachePut (c : Cache) (fname f : String) (m : Doc) :
    cacheGet (cachePut c fname m) f =
      if f = fname then some m else cacheGet c f := by
  induction c with
  | nil =>
    by_cases h : f = fname
    · subst h; simp [cachePut, cacheGet, List.find?]
    · have hb : (fname == f) = false := by
        apply beq_eq_false_iff_ne.mpr
        intro hh; exact h hh.symm
      simp [cachePut, cacheGet, List.find?, hb, h]
  | cons hd tl ih =>
    obtain ⟨a, b⟩ := hd
    simp only [cachePut]
    by_cases h1 : a = fname
    · simp only [h1, beq_self_eq_true, if_true]
      by_cases h2 : f = fname
      · subst h2
        simp [cacheGet, List.find?, h1]
      · have hb : (fname == f) = false := by
          apply beq_eq_false_iff_ne.mpr
          intro hh; exact h2 hh.symm
        simp [cacheGet, List.find?, hb, h2]
    · have hbeq : (a == fname) = false := beq_eq_false_iff_ne.mpr h1
      simp only [hbeq, Bool.false_eq_true, if_false]
      by_cases h2 : f = a
      · subst h2
        have hfn : ¬ f = fname := fun hh => h1 (hh ▸ rfl)
        simp [cacheGet, List.find?, hfn]
      · have hb : (a == f) = false := by
          apply beq_eq_false_iff_ne.mpr
          intro hh; exact h2 hh.symm
        simp only [cacheGet, List.find?, hb, cond_false] at *
        exact ih

def hitCache : Cache := [("cache/a.html", [])]

def hitState : DriverState := ⟨hitCache, some []⟩

def hitNet : String → Doc := fun _ => []

/-- C9 counterexample: on a cache *hit* the driver still performs a put —
the write of `cache/a.html` happens unconditionally after the read (the
`open(..., 'w')` block is outside the `else`), so "performs no put" on a
hit is false. -/
theorem cache_put_counterexample :
    cacheGet hitState.cache (cacheName (baseUrl ++ "/listing/a")) = some []
    ∧ (processLink hitNet hitState "/listing/a").wrote = [("cache/a.html", [])]
    ∧ (processLink hitNet hitState "/listing/a").wrote ≠ [] :=
  ⟨rfl, by decide, by decide⟩

/-- C9 amended: on a cache hit the driver reads the cached markup and then
performs a put that writes back exactly the markup it just read; hence the
content of every existing cache entry is unchanged by the step (entries
are created on first fetch and their content never changes), and the
record appended (if parsing succeeds) is computed from the cached markup. -/
theorem cache_put_amended (net : String → Doc) (st : DriverState) (l : String)
    (rows : List Row) (m : Doc)
    (ht : st.table = some rows)
    (hskip : rows.any (fun r => r.url == some (baseUrl ++ l)) = false)
    (hhit : cacheGet st.cache (cacheName (baseUrl ++ l)) = some m) :
    (processLink net st l).wrote = [(cacheName (baseUrl ++ l), m)]
    ∧ (∀ f m', cacheGet st.cache f = some m' →
        cacheGet (processLink net st l).state.cache f = some m')
    ∧ (processLink net st l).state.table =
        some (match recordOf m with | .ok r => rows ++ [r] | .error _ => rows) := by
  have hstep : processLink net st l =
      (match recordOf m with
       | .error e =>
         ⟨⟨cachePut st.cache (cacheName (baseUrl ++ l)) m, some rows⟩,
          [(cacheName (baseUrl ++ l), m)], some e⟩
       | .ok row =>
         ⟨⟨cachePut st.cache (cacheName (baseUrl ++ l)) m, some (rows ++ [row])⟩,
          [(cacheName (baseUrl ++ l), m)], none⟩) := by
    unfold processLink
    rw [ht]
    dsimp only
    rw [hskip]
    simp only [Bool.false_eq_true, if_false, hhit]
  refine ⟨?_, ?_, ?_⟩
  · rw [hstep]; cases recordOf m <;> rfl
  · intro f m' hget
    rw [hstep]
    have hcp : cacheGet (cachePut st.cache (cacheName (baseUrl ++ l)) m) f = some m' := by
      rw [cacheGet_cachePut]
      by_cases hf : f = cacheName (baseUrl ++ l)
      · subst hf
        rw [hget] at hhit
        rw [if_pos rfl]
        exact congrArg some (Option.some.inj hhit).symm
      · rw [if_neg hf]
        exact hget
    cases recordOf m <;> exact hcp
  · rw [hstep]; cases recordOf m <;> rfl

theorem cache_put_amended_witness :
    (processLink hitNet hitState "/listing/a").wrote =
      [(cacheName (baseUrl ++ "/listing/a"), ([] : Doc))]
    ∧ (∀ f m', cacheGet hitState.cache f = some m' →
        cacheGet (processLink hitNet hitState "/listing/a").state.cache f = some m')
    ∧ (processLink hitNet hitState "/listing/a").state.table =
        some (match recordOf ([] : Doc) with
              | .ok r => ([] : List Row) ++ [r]
              | .error _ => ([] : List Row)) :=
  cache_put_amended hitNet hitState "/listing/a" [] [] rfl rfl rfl

/-! ## C1: the url dedup invariant -/

/-- Does a successful parse of the fetch of `u` store `u` itself as the
record's url (its canonical url)?  Vacuously true when parsing raises. -/
def urlOk (e : Except PyErr Row) (u : String) : Bool :=
  match e with
  | .error _ => true
  | .ok r => r.url == some u

/-- Every cache entry is the cached fetch of one of the run's links. -/
def cacheConsistent (net : String → Doc) (links : List String) (c : Cache) : Prop :=
  ∀ p ∈ c, ∃ l, l ∈ links ∧ p.1 = cacheName (baseUrl ++ l) ∧ p.2 = net (baseUrl ++ l)

theorem cacheGet_mem (c : Cache) (f : String) (m : Doc) :
    cacheGet c f = some m → (f, m) ∈ c := by
  induction c with
  | nil => intro h; cases h
  | cons hd tl ih =>
    obtain ⟨a, b⟩ := hd
    intro h
    simp only [cacheGet, List.find?] at h
    cases hb : (a == f) with
    | true =>
      rw [hb] at h
      have hab : a = f := by simpa using hb
      have hbm : b = m := by simpa using h
      subst hab; subst hbm
      exact List.mem_cons_self _ _
    | false =>
      rw [hb] at h
      simp only [cond_false] at h
      exact List.mem_cons_of_mem _ (ih h)

theorem mem_cachePut (c : Cache) (fname : String) (m : Doc) (p : String × Doc)
    (h : p ∈ cachePut c fname m) : p = (fname, m) ∨ p ∈ c := by
  induction c with
  | nil => simpa [cachePut] using h
  | cons hd tl ih =>
    obtain ⟨a, b⟩ := hd
    simp only [cachePut] at h
    by_cases hb : (a == fname) = true
    · rw [if_pos hb] at h
      have : a = fname := by simpa using hb
      subst this
      rcases List.mem_cons.mp h with h1 | h1
      · left; rw [h1]
      · right; exact List.mem_cons_of_mem _ h1
    · rw [if_neg hb] at h
      rcases List.mem_cons.mp h with h1 | h1
      · right; rw [h1]; exact List.mem_cons_self _ _
      · rcases ih h1 with h2 | h2
        · left; exact h2
        · right; exact List.mem_cons_of_mem _ h2

theorem inv_after_put_append (net : String → Doc) (links : List String) (c : Cache)
    (rows : List Row) (l : String) (hl : l ∈ links)
    (hcanon : ∀ l' ∈ links, urlOk (recordOf (net (baseUrl ++ l'))) (baseUrl ++ l') = true)
    (hc : cacheConsistent net links c)
    (hu : urlsNodup rows)
    (hnotin : (rows.any fun r => r.url == some (baseUrl ++ l)) = false) :
    cacheConsistent net links (cachePut c (cacheName (baseUrl ++ l)) (net (baseUrl ++ l)))
    ∧ urlsNodup (match recordOf (net (baseUrl ++ l)) with
                 | .ok row => rows ++ [row]
                 | .error _ => rows) := by
  constructor
  · intro p hp
    rcases mem_cachePut _ _ _ _ hp with h1 | h1
    · exact ⟨l, hl, by rw [h1], by rw [h1]⟩
    · exact hc p h1
  · have hx : (baseUrl ++ l) ∉ rows.filterMap Row.url := by
      intro hmem
      obtain ⟨r, hr1, hr2⟩ := List.mem_filterMap.mp hmem
      have hall := List.any_eq_false.mp hnotin r hr1
      exact hall (by simp [hr2])
    cases hr : recordOf (net (baseUrl ++ l)) with
    | error e => exact hu
    | ok row =>
      have hurl : row.url = some (baseUrl ++ l) := by
        have := hcanon l hl
        rw [hr] at this
        simpa [urlOk] using this
      show ((rows ++ [row]).filterMap Row.url).Nodup
      rw [List.filterMap_append]
      refine List.Nodup.append hu (by simp [hurl]) ?_
      intro b hb1 hb2
      simp only [List.filterMap_cons, hurl, List.filterMap_nil] at hb2
      rw [List.mem_singleton.mp hb2] at hb1
      exact hx hb1

theorem processLink_inv (net : String → Doc) (links : List String) (st : DriverState)
    (l : String) (hl : l ∈ links)
    (hcanon : ∀ l' ∈ links, urlOk (recordOf (net (baseUrl ++ l'))) (baseUrl ++ l') = true)
    (hinj : ∀ l1 ∈ links, ∀ l2 ∈ links,
      cacheName (baseUrl ++ l1) = cacheName (baseUrl ++ l2) → l1 = l2)
    (hc : cacheConsistent net links st.cache)
    (hu : urlsNodup (tableRows st.table)) :
    cacheConsistent net links (processLink net st l).state.cache
    ∧ urlsNodup (tableRows (processLink net st l).state.table) := by
  unfold processLink
  cases htab : st.table with
  | none =>
    dsimp only
    exact ⟨hc, hu⟩
  | some rows =>
    have hu2 : urlsNodup rows := by
      have hx := hu
      rw [htab] at hx
      exact hx
    dsimp only
    by_cases hskip : (rows.any fun r => r.url == some (baseUrl ++ l)) = true
    · rw [if_pos hskip]
      dsimp only
      exact ⟨hc, hu⟩
    · rw [if_neg hskip]
      have hnotin : (rows.any fun r => r.url == some (baseUrl ++ l)) = false := by
        simpa using hskip
      cases hget : cacheGet st.cache (cacheName (baseUrl ++ l)) with
      | some mc =>
        dsimp only
        have hmem := cacheGet_mem _ _ _ hget
        obtain ⟨l2, hl2, hf, hm⟩ := hc _ hmem
        have hf2 : cacheName (baseUrl ++ l) = cacheName (baseUrl ++ l2) := hf
        have hll : l = l2 := hinj l hl l2 hl2 hf2
        have hm2 : mc = net (baseUrl ++ l) := by
          have hm3 : mc = net (baseUrl ++ l2) := hm
          rw [hll]
          exact hm3
        rw [hm2]
        have hinv := inv_after_put_append net links st.cache rows l hl hcanon hc hu2 hnotin
        cases hr : recordOf (net (baseUrl ++ l)) with
        | error e =>
          rw [hr] at hinv
          exact ⟨hinv.1, by simpa [tableRows] using hinv.2⟩
        | ok row =>
          rw [hr] at hinv
          exact ⟨hinv.1, by simpa [tableRows] using hinv.2⟩
      | none =>
        dsimp only
        have hinv := inv_after_put_append net links st.cache rows l hl hcanon hc hu2 hnotin
        cases hr : recordOf (net (baseUrl ++ l)) with
        | error e =>
          rw [hr] at hinv
          exact ⟨hinv.1, by simpa [tableRows] using hinv.2⟩
        | ok row =>
          rw [hr] at hinv
          exact ⟨hinv.1, by simpa [tableRows] using hinv.2⟩

theorem runLinks_inv (net : String → Doc) (links : List String) (ls : List String)
    (st : DriverState)
    (hsub : ∀ l ∈ ls, l ∈ links)
    (hcanon : ∀ l' ∈ links, urlOk (recordOf (net (baseUrl ++ l'))) (baseUrl ++ l') = true)
    (hinj : ∀ l1 ∈ links, ∀ l2 ∈ links,
      cacheName (baseUrl ++ l1) = cacheName (baseUrl ++ l2) → l1 = l2)
    (hc : cacheConsistent net links st.cache)
    (hu : urlsNodup (tableRows st.table)) :
    cacheConsistent net links (runLinks net st ls).1.cache
    ∧ urlsNodup (tableRows (runLinks net st ls).1.table) := by
  induction ls generalizing st with
  | nil => exact ⟨hc, hu⟩
  | cons l ls ih =>
    have hstep := processLink_inv net links st l (hsub l (List.mem_cons_self _ _))
      hcanon hinj hc hu
    unfold runLinks
    dsimp only
    cases he : (processLink net st l).err with
    | some e => exact hstep
    | none =>
      exact ih (processLink net st l).state
        (fun x hx => hsub x (List.mem_cons_of_mem _ hx)) hstep.1 hstep.2

/-- C1 amended: the driver's membership check is on the *reconstructed*
page url `base ++ link`, while the stored dedup key is the parsed
canonical url.  Provided every fetched listing's canonical url equals its
reconstructed url, cache file names do not collide between distinct links,
and the run starts with a fresh cache and a table whose url column is
duplicate-free, then after processing any prefix of the collected links
the table still holds at most one record per url. -/
theorem url_dedup_amended (net : String → Doc) (links pre suf : List String)
    (rows0 : List Row)
    (hsplit : pre ++ suf = links)
    (hcanon : ∀ l' ∈ links, urlOk (recordOf (net (baseUrl ++ l'))) (baseUrl ++ l') = true)
    (hinj : ∀ l1 ∈ links, ∀ l2 ∈ links,
      cacheName (baseUrl ++ l1) = cacheName (baseUrl ++ l2) → l1 = l2)
    (h0 : urlsNodup rows0) :
    urlsNodup (tableRows (runLinks net ⟨[], some rows0⟩ pre).1.table) :=
  (runLinks_inv net links pre ⟨[], some rows0⟩
    (fun _ hl => hsplit ▸ List.mem_append_left suf hl)
    hcanon hinj (fun p hp => absurd hp (List.not_mem_nil p)) h0).2

def c1Doc : Doc := [.elem "link" [("rel", "canonical"), ("href", "https://example.com/x")] []]

/-- C1 counterexample: the dedup check compares `base ++ link` against the
stored canonical urls.  When a listing's canonical url differs from its
page url, processing the same link twice appends two records with the same
url — the "at most one record per url" invariant fails on the code. -/
theorem url_dedup_counterexample :
    ((tableRows (runLinks (fun _ => c1Doc) ⟨[], some []⟩
        ["/listing/a", "/listing/a"]).1.table).filterMap Row.url)
      = ["https://example.com/x", "https://example.com/x"]
    ∧ ¬ urlsNodup (tableRows (runLinks (fun _ => c1Doc) ⟨[], some []⟩
        ["/listing/a", "/listing/a"]).1.table) :=
  ⟨by decide, by decide⟩

def c1GoodDoc : Doc :=
  [.elem "link" [("rel", "canonical"),
    ("href", "https://www.withroam.com/listing/b")] []]

theorem url_dedup_amended_witness :
    urlsNodup (tableRows (runLinks (fun _ => c1GoodDoc) ⟨[], some []⟩
      ["/listing/b"]).1.table) :=
  url_dedup_amended (fun _ => c1GoodDoc) ["/listing/b"] ["/listing/b"] [] []
    rfl (by decide) (by decide) (by decide)

end Dockfinder
